import Mathlib

/-!
Verification of the batched-fetch + percentile-ranking pipeline of the
algorithmic_trading repository (equal_weight_spdr.py and
momentum_investing.py) against its natural-language specification.

The scripts are shallowly embedded: monetary and return values are
rationals (Python floats never overflow or lose precision on the small
concrete inputs used here, and every property proved is exact
arithmetic), Python exceptions are an explicit error type threaded
through Except, and the pandas / scipy library calls the scripts make
are embedded by the documented semantics of the library versions the
scripts target.
-/

namespace AlgoTrading

/-- Python exceptions that the two scripts can raise on the modelled
paths: ZeroDivisionError from float division by zero, KeyError from
indexing a dict with a missing key, TypeError from comparing None with
a float, ValueError from float() on a non-numeric string. -/
inductive PyErr where
  | zeroDivisionError : PyErr
  | keyError : String → PyErr
  | typeError : PyErr
  | valueError : PyErr
deriving DecidableEq, Repr

/-- Python float division: x / y raises ZeroDivisionError when y = 0,
otherwise returns the quotient (never NaN or infinity). -/
def pyDiv (x y : ℚ) : Except PyErr ℚ :=
  if y = 0 then .error .zeroDivisionError else .ok (x / y)

/-! ## Batcher

Embeds `chucks` (equal_weight_spdr.py lines 146-149) and the identical
`chunks` (momentum_investing.py lines 73-76):

    for i in range(0, len(lst), n):
        yield lst[i:i + n]

Each loop iteration yields the slice lst[i:i+n] and advances i by n;
equivalently the first n elements are yielded and the generator recurses
on the rest.  For an empty list the range is empty and nothing is
yielded.  Python raises ValueError on step n = 0; the claims only
concern positive n, and the n = 0 branch here returns [] so that the
definition is total. -/
def chunks (l : List α) (n : ℕ) : List (List α) :=
  if h₁ : l.length = 0 then []
  else if h₂ : n = 0 then []
  else l.take n :: chunks (l.drop n) n
termination_by l.length
decreasing_by
  simp only [List.length_drop]
  exact Nat.sub_lt (Nat.pos_of_ne_zero h₁) (Nat.pos_of_ne_zero h₂)

theorem chunks_nil (n : ℕ) : chunks ([] : List α) n = [] := by
  rw [chunks]; simp

theorem chunks_cons {l : List α} {n : ℕ} (h₁ : l ≠ []) (h₂ : n ≠ 0) :
    chunks l n = l.take n :: chunks (l.drop n) n := by
  rw [chunks]
  simp [List.length_eq_zero, h₁, h₂]

theorem chunks_eq_nil_iff {l : List α} {n : ℕ} (h₂ : n ≠ 0) :
    chunks l n = [] ↔ l = [] := by
  constructor
  · intro h
    by_contra h₁
    rw [chunks_cons h₁ h₂] at h
    exact List.cons_ne_nil _ _ h
  · intro h; rw [h, chunks_nil]

/-- Concatenating the chunks gives back the input, proved by fuel
induction on an upper bound of the list length. -/
theorem chunks_join_aux (n : ℕ) (hn : 0 < n) :
    ∀ (k : ℕ) (l : List α), l.length ≤ k → (chunks l n).flatten = l := by
  intro k
  induction k with
  | zero =>
    intro l h
    have : l = [] := List.eq_nil_of_length_eq_zero (Nat.le_zero.mp h)
    rw [this, chunks_nil]; rfl
  | succ k ih =>
    intro l h
    by_cases h₁ : l = []
    · rw [h₁, chunks_nil]; rfl
    · rw [chunks_cons h₁ (Nat.pos_iff_ne_zero.mp hn), List.flatten_cons,
        ih (l.drop n) (by simp only [List.length_drop]; omega),
        List.take_append_drop]

/-- Every chunk has size at most n. -/
theorem chunks_length_le (n : ℕ) :
    ∀ (k : ℕ) (l : List α), l.length ≤ k → ∀ c ∈ chunks l n, c.length ≤ n := by
  intro k
  induction k with
  | zero =>
    intro l h c hc
    have : l = [] := List.eq_nil_of_length_eq_zero (Nat.le_zero.mp h)
    rw [this, chunks_nil] at hc
    exact absurd hc (List.not_mem_nil c)
  | succ k ih =>
    intro l h c hc
    by_cases h₁ : l = []
    · rw [h₁, chunks_nil] at hc
      exact absurd hc (List.not_mem_nil c)
    · by_cases h₂ : n = 0
      · rw [chunks] at hc
        simp [h₂] at hc
      · rw [chunks_cons h₁ h₂, List.mem_cons] at hc
        rcases hc with hc | hc
        · rw [hc]; exact List.length_take_le n l
        · exact ih (l.drop n) (by simp only [List.length_drop]; omega) c hc

/-- Every chunk but the last has size exactly n. -/
theorem chunks_dropLast_length (n : ℕ) (hn : 0 < n) :
    ∀ (k : ℕ) (l : List α), l.length ≤ k →
      ∀ c ∈ (chunks l n).dropLast, c.length = n := by
  intro k
  induction k with
  | zero =>
    intro l h c hc
    have : l = [] := List.eq_nil_of_length_eq_zero (Nat.le_zero.mp h)
    rw [this, chunks_nil] at hc
    exact absurd hc (List.not_mem_nil c)
  | succ k ih =>
    intro l h c hc
    have hn' : n ≠ 0 := Nat.pos_iff_ne_zero.mp hn
    by_cases h₁ : l = []
    · rw [h₁, chunks_nil] at hc
      exact absurd hc (List.not_mem_nil c)
    · rw [chunks_cons h₁ hn'] at hc
      by_cases h₃ : l.drop n = []
      · rw [h₃, chunks_nil, List.dropLast_single] at hc
        exact absurd hc (List.not_mem_nil c)
      · have hrest : chunks (l.drop n) n ≠ [] := by
          rw [Ne, chunks_eq_nil_iff hn']
          exact h₃
        rw [List.dropLast_cons_of_ne_nil hrest, List.mem_cons] at hc
        rcases hc with hc | hc
        · have hlen : n ≤ l.length := by
            by_contra hlt
            exact h₃ (List.drop_eq_nil_of_le (le_of_not_le hlt))
          rw [hc, List.length_take]
          omega
        · exact ih (l.drop n) (by simp only [List.length_drop]; omega) c hc

/-- Claim C4: for every list of symbols and every positive chunk size n,
the Batcher returns contiguous chunks whose concatenation equals the
original list in order, every chunk has size at most n, only the last
chunk may be smaller than n, and an empty input yields zero chunks. -/
theorem c4_chunks_spec (l : List α) (n : ℕ) (hn : 0 < n) :
    (chunks l n).flatten = l
    ∧ (∀ c ∈ chunks l n, c.length ≤ n)
    ∧ (∀ c ∈ (chunks l n).dropLast, c.length = n)
    ∧ chunks ([] : List α) n = [] :=
  ⟨chunks_join_aux n hn l.length l le_rfl,
   chunks_length_le n l.length l le_rfl,
   chunks_dropLast_length n hn l.length l le_rfl,
   chunks_nil n⟩

/-- Witness for C4 at a concrete input: seven symbols in chunks of
three give [3, 3, 1]. -/
theorem c4_witness :
    (0 : ℕ) < 3
    ∧ ((chunks [10, 20, 30, 40, 50, 60, 70] 3).flatten
         = [10, 20, 30, 40, 50, 60, (70 : ℕ)]
       ∧ (∀ c ∈ chunks [10, 20, 30, 40, 50, 60, (70 : ℕ)] 3, c.length ≤ 3)
       ∧ (∀ c ∈ (chunks [10, 20, 30, 40, 50, 60, (70 : ℕ)] 3).dropLast,
            c.length = 3)
       ∧ chunks ([] : List ℕ) 3 = []) :=
  ⟨by decide, c4_chunks_spec [10, 20, 30, 40, 50, 60, 70] 3 (by decide)⟩

/-! ## Ranking Engine: percentile-of-score

momentum_investing.py line 24 does

    from scipy.stats import percentileofscore as score

and line 273 calls `score(hqm_df[change_col], hqm_df.loc[row, change_col])`
with no kind argument, so scipy's default kind = 'rank' applies.  scipy
computes, for population a and value v with left = count(a < v) and
right = count(a <= v):

    pct = (left + right + (1 if right > left else 0)) * 50.0 / len(a)

(The spec instead prescribes the kind = 'weak' variant
count(a <= v) / len(a) * 100; the two differ whenever v is tied with
another population element, which claim C1 is about.) -/

/-- Embedding of scipy.stats.percentileofscore with default kind = 'rank',
as called by the script. -/
def percentileofscore (a : List ℚ) (v : ℚ) : ℚ :=
  let left := a.countP (fun x => decide (x < v))
  let right := a.countP (fun x => decide (x ≤ v))
  ((left : ℚ) + (right : ℚ) + (if left < right then 1 else 0))
    * (50 / (a.length : ℚ))

/-- Percentile value the Ranking Engine stores (line 273): the scipy
result divided by 100. -/
def storedPercentile (a : List ℚ) (v : ℚ) : ℚ :=
  percentileofscore a v / 100

/-- Counting elements at or below v splits into those strictly below
and those equal. -/
theorem countP_le_split (a : List ℚ) (v : ℚ) :
    a.countP (fun x => decide (x ≤ v))
      = a.countP (fun x => decide (x < v))
          + a.countP (fun x => decide (x = v)) := by
  induction a with
  | nil => rfl
  | cons b l ih =>
    simp only [List.countP_cons, ih]
    by_cases h1 : b < v
    · simp [h1, le_of_lt h1, ne_of_lt h1]
      omega
    · by_cases h2 : b = v
      · simp [h1, h2]
        omega
      · have h3 : ¬b ≤ v := fun hle => h1 (lt_of_le_of_ne hle h2)
        simp [h1, h2, h3]

/-- Claim C1 as stated is false: the engine stores the scipy rank
percentile, not the weak count(P <= v)/|P| fraction.  On the population
[1, 1] the row value 1 is stored as 3/4, while the claimed formula
gives 1. -/
theorem c1_counterexample :
    (1 : ℚ) ∈ [(1 : ℚ), 1]
    ∧ storedPercentile [(1 : ℚ), 1] 1
        ≠ (([(1 : ℚ), 1].countP (fun x => decide (x ≤ (1 : ℚ)))) : ℚ)
            / (([(1 : ℚ), 1].length : ℚ)) := by
  constructor
  · decide
  · norm_num [storedPercentile, percentileofscore, List.countP_cons,
      List.countP_nil]

/-- Claim C1 amended: for a row value v drawn from population P, the
stored percentile equals (count(P < v) + count(P <= v) + 1) / (2 |P|)
(the scipy rank variant), it lies in [0, 1], and rows with equal values
receive exactly the same percentile. -/
theorem c1_percentile_rank (P : List ℚ) (v w : ℚ) (hv : v ∈ P) (hw : w = v) :
    storedPercentile P v
      = ((P.countP (fun x => decide (x < v)) : ℚ)
          + (P.countP (fun x => decide (x ≤ v)) : ℚ) + 1)
          / (2 * (P.length : ℚ))
    ∧ 0 ≤ storedPercentile P v
    ∧ storedPercentile P v ≤ 1
    ∧ storedPercentile P w = storedPercentile P v := by
  have hne : P ≠ [] := List.ne_nil_of_mem hv
  have hn0 : 0 < P.length := List.length_pos.mpr hne
  have hQ : (0 : ℚ) < (P.length : ℚ) := by exact_mod_cast hn0
  have hsplit := countP_le_split P v
  have heq1 : 0 < P.countP (fun x => decide (x = v)) :=
    List.countP_pos_iff.mpr ⟨v, hv, by simp⟩
  have hlr : P.countP (fun x => decide (x < v))
      < P.countP (fun x => decide (x ≤ v)) := by omega
  have hright : P.countP (fun x => decide (x ≤ v)) ≤ P.length :=
    List.countP_le_length _
  have hform : storedPercentile P v
      = ((P.countP (fun x => decide (x < v)) : ℚ)
          + (P.countP (fun x => decide (x ≤ v)) : ℚ) + 1)
          / (2 * (P.length : ℚ)) := by
    simp only [storedPercentile, percentileofscore, if_pos hlr]
    field_simp
    ring
  refine ⟨hform, ?_, ?_, by rw [hw]⟩
  · rw [hform]
    apply div_nonneg _ (by positivity)
    positivity
  · rw [hform]
    rw [div_le_one (by positivity)]
    have : P.countP (fun x => decide (x < v))
        + P.countP (fun x => decide (x ≤ v)) + 1 ≤ 2 * P.length := by omega
    exact_mod_cast this

/-- Witness for the amended C1 at the concrete population [3, 1, 2]
with row value 2 (tied with no one: stored percentile 2/3). -/
theorem c1_witness :
    (2 : ℚ) ∈ [(3 : ℚ), 1, 2]
    ∧ (storedPercentile [(3 : ℚ), 1, 2] 2
        = (([(3 : ℚ), 1, 2].countP (fun x => decide (x < (2 : ℚ))) : ℚ)
            + ([(3 : ℚ), 1, 2].countP (fun x => decide (x ≤ (2 : ℚ))) : ℚ) + 1)
            / (2 * (([(3 : ℚ), 1, 2].length : ℚ)))
       ∧ 0 ≤ storedPercentile [(3 : ℚ), 1, 2] 2
       ∧ storedPercentile [(3 : ℚ), 1, 2] 2 ≤ 1
       ∧ storedPercentile [(3 : ℚ), 1, 2] 2 = storedPercentile [(3 : ℚ), 1, 2] 2) :=
  ⟨by decide, c1_percentile_rank [(3 : ℚ), 1, 2] 2 2 (by decide) rfl⟩

/-! ## Composite (HQM) mode

momentum_investing.py lines 202-223 build hqm_df with a price and four
change-percent columns per ticker, each change percent either a number
or None.  Lines 252-258 replace a None cell with 0.0; lines 267-273 fill
the percentile columns; lines 293-299 store the HQM Score as
statistics.mean of the four percentile entries. -/

/-- Row of hqm_df as fetched: price plus the four horizon change
percents, each possibly None. -/
structure HqmRow where
  ticker : String
  price : ℚ
  ret1y : Option ℚ
  ret6m : Option ℚ
  ret3m : Option ℚ
  ret1m : Option ℚ
deriving DecidableEq, Repr

/-- Row of hqm_df after the null-to-zero loop: every horizon value is a
number. -/
structure HqmRowN where
  ticker : String
  price : ℚ
  r1y : ℚ
  r6m : ℚ
  r3m : ℚ
  r1m : ℚ
deriving DecidableEq, Repr

/-- Cell update of the null-to-zero loop (lines 252-258): a None change
percent becomes 0.0, any other value is left as it is. -/
def normOpt : Option ℚ → ℚ
  | none => 0
  | some v => v

/-- Null-to-zero loop applied to the four horizon cells of one row. -/
def normalizeHqmRow (r : HqmRow) : HqmRowN :=
  ⟨r.ticker, r.price, normOpt r.ret1y, normOpt r.ret6m,
   normOpt r.ret3m, normOpt r.ret1m⟩

/-- Percentile column entry for one horizon (line 273): the scipy rank
percentile of the row's value against the full column, divided by 100. -/
def horizonPercentile (rows : List HqmRowN) (get : HqmRowN → ℚ)
    (r : HqmRowN) : ℚ :=
  storedPercentile (rows.map get) (get r)

/-- HQM Score (lines 293-299): arithmetic mean of the four percentile
columns. -/
def hqmScore (rows : List HqmRowN) (r : HqmRowN) : ℚ :=
  (horizonPercentile rows (fun x => x.r1y) r
    + horizonPercentile rows (fun x => x.r6m) r
    + horizonPercentile rows (fun x => x.r3m) r
    + horizonPercentile rows (fun x => x.r1m) r) / 4

/-- Stored percentile of a value strictly above the rest of its
population is exactly 1. -/
theorem storedPercentile_strict_max (l₁ l₂ : List ℚ) (v : ℚ)
    (h : ∀ x ∈ l₁ ++ l₂, x < v) :
    storedPercentile (l₁ ++ v :: l₂) v = 1 := by
  have h₁ : ∀ x ∈ l₁, x < v := fun x hx => h x (List.mem_append_left _ hx)
  have h₂ : ∀ x ∈ l₂, x < v := fun x hx => h x (List.mem_append_right _ hx)
  have hlt : (l₁ ++ v :: l₂).countP (fun x => decide (x < v))
      = l₁.length + l₂.length := by
    rw [List.countP_append, List.countP_cons]
    have e₁ : l₁.countP (fun x => decide (x < v)) = l₁.length :=
      List.countP_eq_length.mpr (fun x hx => by simp [h₁ x hx])
    have e₂ : l₂.countP (fun x => decide (x < v)) = l₂.length :=
      List.countP_eq_length.mpr (fun x hx => by simp [h₂ x hx])
    simp [e₁, e₂]
  have hle : (l₁ ++ v :: l₂).countP (fun x => decide (x ≤ v))
      = l₁.length + l₂.length + 1 := by
    rw [List.countP_append, List.countP_cons]
    have e₁ : l₁.countP (fun x => decide (x ≤ v)) = l₁.length :=
      List.countP_eq_length.mpr (fun x hx => by simp [le_of_lt (h₁ x hx)])
    have e₂ : l₂.countP (fun x => decide (x ≤ v)) = l₂.length :=
      List.countP_eq_length.mpr (fun x hx => by simp [le_of_lt (h₂ x hx)])
    simp [e₁, e₂]
    omega
  have hlen : ((l₁ ++ v :: l₂).length : ℚ)
      = (l₁.length : ℚ) + (l₂.length : ℚ) + 1 := by
    push_cast [List.length_append, List.length_cons]
    ring
  simp only [storedPercentile, percentileofscore, hlt, hle, hlen,
    if_pos (by omega : l₁.length + l₂.length < l₁.length + l₂.length + 1)]
  have hne : (l₁.length : ℚ) + (l₂.length : ℚ) + 1 ≠ 0 := by positivity
  field_simp
  ring

/-- Stored percentile of a value strictly below the rest of its
population is 1/n for a population of size n, never 0. -/
theorem storedPercentile_strict_min (l₁ l₂ : List ℚ) (v : ℚ)
    (h : ∀ x ∈ l₁ ++ l₂, v < x) :
    storedPercentile (l₁ ++ v :: l₂) v
      = 1 / (((l₁ ++ v :: l₂).length : ℚ)) := by
  have h₁ : ∀ x ∈ l₁, v < x := fun x hx => h x (List.mem_append_left _ hx)
  have h₂ : ∀ x ∈ l₂, v < x := fun x hx => h x (List.mem_append_right _ hx)
  have hlt : (l₁ ++ v :: l₂).countP (fun x => decide (x < v)) = 0 := by
    rw [List.countP_append, List.countP_cons]
    have e₁ : l₁.countP (fun x => decide (x < v)) = 0 :=
      List.countP_eq_zero.mpr (fun x hx => by simp [not_lt_of_gt (h₁ x hx)])
    have e₂ : l₂.countP (fun x => decide (x < v)) = 0 :=
      List.countP_eq_zero.mpr (fun x hx => by simp [not_lt_of_gt (h₂ x hx)])
    simp [e₁, e₂]
  have hle : (l₁ ++ v :: l₂).countP (fun x => decide (x ≤ v)) = 1 := by
    rw [List.countP_append, List.countP_cons]
    have e₁ : l₁.countP (fun x => decide (x ≤ v)) = 0 :=
      List.countP_eq_zero.mpr
        (fun x hx => by simp [not_le_of_gt (h₁ x hx)])
    have e₂ : l₂.countP (fun x => decide (x ≤ v)) = 0 :=
      List.countP_eq_zero.mpr
        (fun x hx => by simp [not_le_of_gt (h₂ x hx)])
    simp [e₁, e₂]
  have hlen : ((l₁ ++ v :: l₂).length : ℚ)
      = (l₁.length : ℚ) + (l₂.length : ℚ) + 1 := by
    push_cast [List.length_append, List.length_cons]
    ring
  simp only [storedPercentile, percentileofscore, hlt, hle, hlen,
    if_pos (by omega : 0 < 1)]
  have hne : (l₁.length : ℚ) + (l₂.length : ℚ) + 1 ≠ 0 := by positivity
  field_simp
  ring

/-- Horizon percentile of a row strictly above all other rows on that
horizon. -/
theorem horizonPercentile_strict_max (l₁ l₂ : List HqmRowN) (r : HqmRowN)
    (get : HqmRowN → ℚ) (h : ∀ s ∈ l₁ ++ l₂, get s < get r) :
    horizonPercentile (l₁ ++ r :: l₂) get r = 1 := by
  unfold horizonPercentile
  rw [List.map_append, List.map_cons]
  apply storedPercentile_strict_max
  intro x hx
  rw [← List.map_append] at hx
  obtain ⟨s, hs, rfl⟩ := List.mem_map.mp hx
  exact h s hs

/-- Horizon percentile of a row strictly below all other rows on that
horizon. -/
theorem horizonPercentile_strict_min (l₁ l₂ : List HqmRowN) (r : HqmRowN)
    (get : HqmRowN → ℚ) (h : ∀ s ∈ l₁ ++ l₂, get r < get s) :
    horizonPercentile (l₁ ++ r :: l₂) get r
      = 1 / (((l₁ ++ r :: l₂).length : ℚ)) := by
  unfold horizonPercentile
  rw [List.map_append, List.map_cons]
  rw [storedPercentile_strict_min]
  · simp
  · intro x hx
    rw [← List.map_append] at hx
    obtain ⟨s, hs, rfl⟩ := List.mem_map.mp hx
    exact h s hs

/-- Claim C7 as stated is false on both of its sides.  Bottom side:
with rows A (all four returns 1/10) and B (all four returns 1/5), A is
strictly below B on every horizon, yet its composite score is 1/2, not
0 — the scipy rank percentile of a population minimum counts the value
itself, so a bottom row scores 1/n per horizon.  Top side: with rows T
and U tied at 3/10 on all four horizons, T is at or above every other
row on every horizon, yet its composite score is 3/4, not 1 — the rank
percentile of a tied maximum stays below 100. -/
theorem c7_counterexample :
    (((⟨"A", 10, 1/10, 1/10, 1/10, 1/10⟩ : HqmRowN).r1y
        < (⟨"B", 10, 1/5, 1/5, 1/5, 1/5⟩ : HqmRowN).r1y
      ∧ (⟨"A", 10, 1/10, 1/10, 1/10, 1/10⟩ : HqmRowN).r6m
        < (⟨"B", 10, 1/5, 1/5, 1/5, 1/5⟩ : HqmRowN).r6m
      ∧ (⟨"A", 10, 1/10, 1/10, 1/10, 1/10⟩ : HqmRowN).r3m
        < (⟨"B", 10, 1/5, 1/5, 1/5, 1/5⟩ : HqmRowN).r3m
      ∧ (⟨"A", 10, 1/10, 1/10, 1/10, 1/10⟩ : HqmRowN).r1m
        < (⟨"B", 10, 1/5, 1/5, 1/5, 1/5⟩ : HqmRowN).r1m)
    ∧ hqmScore
        [⟨"A", 10, 1/10, 1/10, 1/10, 1/10⟩, ⟨"B", 10, 1/5, 1/5, 1/5, 1/5⟩]
        ⟨"A", 10, 1/10, 1/10, 1/10, 1/10⟩ ≠ 0)
    ∧ (((⟨"U", 10, 3/10, 3/10, 3/10, 3/10⟩ : HqmRowN).r1y
        ≤ (⟨"T", 10, 3/10, 3/10, 3/10, 3/10⟩ : HqmRowN).r1y
      ∧ (⟨"U", 10, 3/10, 3/10, 3/10, 3/10⟩ : HqmRowN).r6m
        ≤ (⟨"T", 10, 3/10, 3/10, 3/10, 3/10⟩ : HqmRowN).r6m
      ∧ (⟨"U", 10, 3/10, 3/10, 3/10, 3/10⟩ : HqmRowN).r3m
        ≤ (⟨"T", 10, 3/10, 3/10, 3/10, 3/10⟩ : HqmRowN).r3m
      ∧ (⟨"U", 10, 3/10, 3/10, 3/10, 3/10⟩ : HqmRowN).r1m
        ≤ (⟨"T", 10, 3/10, 3/10, 3/10, 3/10⟩ : HqmRowN).r1m)
    ∧ hqmScore
        [⟨"T", 10, 3/10, 3/10, 3/10, 3/10⟩, ⟨"U", 10, 3/10, 3/10, 3/10, 3/10⟩]
        ⟨"T", 10, 3/10, 3/10, 3/10, 3/10⟩ ≠ 1) := by
  refine ⟨⟨?_, ?_⟩, ?_, ?_⟩
  · norm_num
  · norm_num [hqmScore, horizonPercentile, storedPercentile,
      percentileofscore, List.countP_cons, List.countP_nil]
  · norm_num
  · norm_num [hqmScore, horizonPercentile, storedPercentile,
      percentileofscore, List.countP_cons, List.countP_nil]

/-- Claim C7 amended: a row strictly above every other row on all four
horizons receives composite score exactly 1; a row strictly below every
other row on all four horizons receives composite score exactly 1/n for
a universe of n rows (the scipy rank percentile includes the row's own
value in its population, so the bottom score is 1/n, not 0). -/
theorem c7_extremes (l₁ l₂ : List HqmRowN) (r : HqmRowN) :
    ((∀ s ∈ l₁ ++ l₂,
        s.r1y < r.r1y ∧ s.r6m < r.r6m ∧ s.r3m < r.r3m ∧ s.r1m < r.r1m) →
      hqmScore (l₁ ++ r :: l₂) r = 1)
    ∧ ((∀ s ∈ l₁ ++ l₂,
        r.r1y < s.r1y ∧ r.r6m < s.r6m ∧ r.r3m < s.r3m ∧ r.r1m < s.r1m) →
      hqmScore (l₁ ++ r :: l₂) r = 1 / (((l₁ ++ r :: l₂).length : ℚ))) := by
  constructor
  · intro h
    unfold hqmScore
    rw [horizonPercentile_strict_max l₁ l₂ r _ (fun s hs => (h s hs).1),
      horizonPercentile_strict_max l₁ l₂ r _ (fun s hs => (h s hs).2.1),
      horizonPercentile_strict_max l₁ l₂ r _ (fun s hs => (h s hs).2.2.1),
      horizonPercentile_strict_max l₁ l₂ r _ (fun s hs => (h s hs).2.2.2)]
    norm_num
  · intro h
    unfold hqmScore
    rw [horizonPercentile_strict_min l₁ l₂ r _ (fun s hs => (h s hs).1),
      horizonPercentile_strict_min l₁ l₂ r _ (fun s hs => (h s hs).2.1),
      horizonPercentile_strict_min l₁ l₂ r _ (fun s hs => (h s hs).2.2.1),
      horizonPercentile_strict_min l₁ l₂ r _ (fun s hs => (h s hs).2.2.2)]
    ring

/-- Witness for the amended C7 at a concrete two-row universe: the
strictly-dominating row scores 1, the strictly-dominated row scores
1/2. -/
theorem c7_witness :
    hqmScore
        ([⟨"A", 10, 1/10, 1/10, 1/10, 1/10⟩]
          ++ (⟨"B", 10, 1/5, 1/5, 1/5, 1/5⟩ : HqmRowN) :: [])
        ⟨"B", 10, 1/5, 1/5, 1/5, 1/5⟩ = 1
    ∧ hqmScore
        ([] ++ (⟨"C", 10, 1/10, 1/10, 1/10, 1/10⟩ : HqmRowN)
          :: [⟨"D", 10, 1/5, 1/5, 1/5, 1/5⟩])
        ⟨"C", 10, 1/10, 1/10, 1/10, 1/10⟩
      = 1 / ((([] ++ (⟨"C", 10, 1/10, 1/10, 1/10, 1/10⟩ : HqmRowN)
          :: [⟨"D", 10, 1/5, 1/5, 1/5, 1/5⟩]).length : ℚ)) :=
  ⟨(c7_extremes [⟨"A", 10, 1/10, 1/10, 1/10, 1/10⟩] []
      ⟨"B", 10, 1/5, 1/5, 1/5, 1/5⟩).1 (by norm_num),
   (c7_extremes [] [⟨"D", 10, 1/5, 1/5, 1/5, 1/5⟩]
      ⟨"C", 10, 1/10, 1/10, 1/10, 1/10⟩).2 (by norm_num)⟩

/-! ## Top-N single-metric mode

momentum_investing.py lines 92-109 build final_df with ticker, price and
the one-year change percent (a number or None; no normalization step
runs on this frame).  Line 122 sorts descending on the metric column,
line 123 keeps the first 50 rows, line 124 re-indexes. -/

/-- Row of the Top-N frame: ticker, price and the one metric value,
possibly None. -/
structure MomRow where
  ticker : String
  price : ℚ
  ret1y : Option ℚ
deriving DecidableEq, Repr

/-- Metric key used for ordering the non-NA rows. -/
def momKey (r : MomRow) : ℚ := r.ret1y.getD 0

/-- Comparison relation of the descending sort: a comes before b when
a's metric is at least b's. -/
def momBefore (a b : MomRow) : Prop := momKey b ≤ momKey a

instance : DecidableRel momBefore := fun a b =>
  inferInstanceAs (Decidable (momKey b ≤ momKey a))

instance : IsTotal MomRow momBefore :=
  ⟨fun a b => le_total (momKey b) (momKey a)⟩

instance : IsTrans MomRow momBefore :=
  ⟨fun _ _ _ hab hbc => le_trans hbc hab⟩

/-- Embedding of pandas DataFrame.sort_values on the metric column with
ascending=False (line 122).  pandas separates NA entries (None counts
as NA in an object column) and appends them last in their original
order (na_position='last', for either sort direction); the non-NA rows
are ordered by reversing the input, taking an ascending argsort with
the caller's kind and reversing the resulting index order.  The script
passes no kind, so the default quicksort runs, which pandas documents
as not stable: on frames larger than numpy's 16-element insertion-sort
cutoff the relative order of tied rows is not specified by the
documented semantics.  The embedding must pick one concrete function
and uses a stable descending insertion sort for the non-NA part; the
only properties proved from it are permutation, descending sortedness,
NA placement and output size, each of which holds for every tie order
the quicksort could produce.  No stability property of the program is
derived from the embedding's tie order. -/
def momSortValues (rows : List MomRow) : List MomRow :=
  List.insertionSort momBefore (rows.filter (fun r => r.ret1y.isSome))
    ++ rows.filter (fun r => r.ret1y.isNone)

/-- head(N) applied after the sort (line 123; the script uses N = 50). -/
def momTopN (rows : List MomRow) (n : ℕ) : List MomRow :=
  (momSortValues rows).take n

/-- Top-N variant following the spec's words, for comparison in claim
C5: normalize every missing metric value to 0.0 first, then sort
descending and keep the first N rows. -/
def momTopNSpecNormalized (rows : List MomRow) (n : ℕ) : List MomRow :=
  (List.insertionSort momBefore
    (rows.map (fun r => ⟨r.ticker, r.price, some (momKey r)⟩))).take n

/-- Claim C5 as stated is false: in Top-N mode no missing value is
normalized to 0.0 before sorting.  With row A carrying return -5 and
row B carrying a missing return, the script sorts B last (pandas places
NA rows at the end) and keeps its value missing, while the claimed
normalize-first behaviour would give B the value 0.0 and sort it above
the negative row A. -/
theorem c5_counterexample :
    momTopN [⟨"A", 10, some (-5 : ℚ)⟩, ⟨"B", 10, none⟩] 2
      ≠ momTopNSpecNormalized [⟨"A", 10, some (-5 : ℚ)⟩, ⟨"B", 10, none⟩] 2 := by
  decide

/-- Claim C5 amended: only composite (HQM) mode normalizes missing
horizon returns to 0.0 before ranking (a None cell becomes 0.0, any
present value is kept); Top-N mode performs no normalization, and its
sort instead places every missing-return row after all rows with a
present return, in original order, without error. -/
theorem c5_normalization (r : HqmRow) (rows : List MomRow) :
    ((normalizeHqmRow r).r1y = r.ret1y.getD 0
      ∧ (normalizeHqmRow r).r6m = r.ret6m.getD 0
      ∧ (normalizeHqmRow r).r3m = r.ret3m.getD 0
      ∧ (normalizeHqmRow r).r1m = r.ret1m.getD 0)
    ∧ (∃ l₁, momSortValues rows
          = l₁ ++ rows.filter (fun x => x.ret1y.isNone)
        ∧ (∀ x ∈ l₁, x.ret1y.isSome = true)
        ∧ List.Sorted momBefore l₁)
    ∧ List.Perm (momSortValues rows) rows := by
  refine ⟨⟨?_, ?_, ?_, ?_⟩, ?_, ?_⟩
  · cases h : r.ret1y <;> simp [normalizeHqmRow, normOpt, h]
  · cases h : r.ret6m <;> simp [normalizeHqmRow, normOpt, h]
  · cases h : r.ret3m <;> simp [normalizeHqmRow, normOpt, h]
  · cases h : r.ret1m <;> simp [normalizeHqmRow, normOpt, h]
  · refine ⟨List.insertionSort momBefore
      (rows.filter (fun r => r.ret1y.isSome)), rfl, ?_, ?_⟩
    · intro x hx
      have hx' : x ∈ rows.filter (fun r => r.ret1y.isSome) :=
        (List.perm_insertionSort momBefore _).mem_iff.mp hx
      exact (List.mem_filter.mp hx').2
    · exact List.sorted_insertionSort momBefore _
  · unfold momSortValues
    refine List.Perm.trans
      (List.Perm.append ((List.perm_insertionSort momBefore _))
        (List.Perm.refl _)) ?_
    have : ∀ x : MomRow, x.ret1y.isNone = !x.ret1y.isSome := by
      intro x; cases x.ret1y <;> rfl
    simp only [this]
    exact List.filter_append_perm _ rows

/-- Witness for the amended C5 at a concrete row and universe. -/
theorem c5_witness :
    (((normalizeHqmRow ⟨"N", 10, none, none, some 3, none⟩).r1y
        = (none : Option ℚ).getD 0
      ∧ (normalizeHqmRow ⟨"N", 10, none, none, some 3, none⟩).r6m
        = (none : Option ℚ).getD 0
      ∧ (normalizeHqmRow ⟨"N", 10, none, none, some 3, none⟩).r3m
        = (some (3 : ℚ)).getD 0
      ∧ (normalizeHqmRow ⟨"N", 10, none, none, some 3, none⟩).r1m
        = (none : Option ℚ).getD 0)
    ∧ (∃ l₁, momSortValues [⟨"A", 10, some (-5 : ℚ)⟩, ⟨"B", 10, none⟩]
          = l₁ ++ [⟨"A", 10, some (-5 : ℚ)⟩,
              (⟨"B", 10, none⟩ : MomRow)].filter (fun x => x.ret1y.isNone)
        ∧ (∀ x ∈ l₁, x.ret1y.isSome = true)
        ∧ List.Sorted momBefore l₁)
    ∧ List.Perm
        (momSortValues [⟨"A", 10, some (-5 : ℚ)⟩, ⟨"B", 10, none⟩])
        [⟨"A", 10, some (-5 : ℚ)⟩, ⟨"B", 10, none⟩]) :=
  c5_normalization ⟨"N", 10, none, none, some 3, none⟩
    [⟨"A", 10, some (-5 : ℚ)⟩, ⟨"B", 10, none⟩]

/-- Claim C6, restricted to what the code guarantees: on a universe
whose metric values are all present, Top-N mode returns exactly
min(N, number of rows) rows, sorted descending by the metric, and a
universe smaller than N is returned whole (sorted) without error.
These conjuncts are independent of the tie order and hold for every
tie order the quicksort could produce.  The claim's remaining
conjunct — a stable sort keeping equal-valued rows in their original
relative order — is not guaranteed by the code: line 122 sorts with the
default kind='quicksort', which pandas documents as not stable (only
kind='mergesort' or 'stable' would honor the stability the spec
requires), so no stability theorem is stated. -/
theorem c6_topn (rows : List MomRow) (n : ℕ)
    (hall : ∀ r ∈ rows, r.ret1y.isSome = true) (hn : 0 < n) :
    (momTopN rows n).length = min n rows.length
    ∧ List.Sorted momBefore (momTopN rows n)
    ∧ (rows.length ≤ n → momTopN rows n = momSortValues rows) := by
  have hsome : rows.filter (fun r => r.ret1y.isSome) = rows :=
    List.filter_eq_self.mpr hall
  have hnone : rows.filter (fun r => r.ret1y.isNone) = [] := by
    rw [List.filter_eq_nil_iff]
    intro a ha
    have := hall a ha
    cases h : a.ret1y with
    | none => rw [h] at this; exact absurd this (by simp)
    | some w => simp [h]
  have hms : momSortValues rows = List.insertionSort momBefore rows := by
    unfold momSortValues
    rw [hsome, hnone, List.append_nil]
  refine ⟨?_, ?_, ?_⟩
  · unfold momTopN
    rw [hms, List.length_take, List.length_insertionSort]
  · unfold momTopN
    rw [hms]
    exact List.Pairwise.sublist (List.take_sublist n _)
      (List.sorted_insertionSort momBefore rows)
  · intro hle
    unfold momTopN
    apply List.take_of_length_le
    rw [hms, List.length_insertionSort]
    exact hle

/-- Concrete universe used by the C6 witness: rows A, B and C with
metric values 5, 5 and 1. -/
def c6Rows : List MomRow :=
  [⟨"A", 10, some 5⟩, ⟨"B", 20, some 5⟩, ⟨"C", 30, some 1⟩]

/-- Witness for C6 at the concrete universe with N = 2. -/
theorem c6_witness :
    (momTopN c6Rows 2).length = min 2 c6Rows.length
    ∧ List.Sorted momBefore (momTopN c6Rows 2)
    ∧ (c6Rows.length ≤ 2 → momTopN c6Rows 2 = momSortValues c6Rows) :=
  c6_topn c6Rows 2 (by decide) (by decide)

/-! ## Allocator

equal_weight_spdr.py lines 204-206:

    position_size = val/len(final_df.index)
    for i in range(0, len(final_df.index)):
        final_df.loc[i, 'Number of Shares to Buy'] =
            math.floor(position_size/final_df.loc[i, 'Stock Price'])

momentum_investing.py lines 154-156 and 330-332:

    position_size = float(portfolio_size)/len(final_df.index)
    for i in range(0, len(final_df)):
        final_df.loc[i, 'Number of Shares to Buy'] =
            position_size/final_df.loc[i, 'Price']

The momentum loops apply no floor (and `import math` at line 21 of
momentum_investing.py is never used). -/

/-- Position size: the portfolio value divided by the row count, a
Python float division that raises ZeroDivisionError on an empty
frame. -/
def positionSize (val : ℚ) (rowCount : ℕ) : Except PyErr ℚ :=
  pyDiv val rowCount

/-- Share count stored by the equal-weight script (line 206):
math.floor(position_size / price). -/
def ewSharesToBuy (pos price : ℚ) : ℤ := ⌊pos / price⌋

/-- Share count stored by the momentum script (lines 156 and 332):
position_size / price, with no floor. -/
def momSharesToBuy (pos price : ℚ) : ℚ := pos / price

/-- Claim C3: an Allocator call with zero rows surfaces an explicit
ZeroDivisionError for every portfolio value; no position size (hence no
NaN or infinity) is ever produced. -/
theorem c3_empty_allocator (val : ℚ) :
    positionSize val 0 = .error .zeroDivisionError
    ∧ ∀ q : ℚ, positionSize val 0 ≠ .ok q := by
  constructor
  · simp [positionSize, pyDiv]
  · intro q
    simp [positionSize, pyDiv]

/-- Claim C2 evaluated at the failing input: with one surviving row
priced 3000 and portfolio value 2500, position size is 2500 and the
momentum script stores 2500/3000 = 5/6 shares, while the claimed
floor(positionSize/price) — which the equal-weight script does
compute — gives 0; the stored share count is not the floor and not an
integer. -/
theorem c2_momentum_no_floor :
    positionSize 2500 1 = .ok (2500 : ℚ)
    ∧ momSharesToBuy 2500 3000 = 5/6
    ∧ ewSharesToBuy 2500 3000 = 0
    ∧ momSharesToBuy 2500 3000 ≠ ((ewSharesToBuy 2500 3000 : ℤ) : ℚ) := by
  have hfloor : ewSharesToBuy 2500 3000 = 0 := by
    unfold ewSharesToBuy
    apply Int.floor_eq_iff.mpr
    constructor <;> norm_num
  refine ⟨?_, ?_, hfloor, ?_⟩
  · norm_num [positionSize, pyDiv]
  · norm_num [momSharesToBuy]
  · rw [hfloor]
    norm_num [momSharesToBuy]

/-- Total cost of the equal-weight allocation over the rows' prices
(lines 204-206): each row buys floor(positionSize/price) shares at its
price, positionSize being the portfolio value split equally. -/
def ewTotalCost (val : ℚ) (prices : List ℚ) : ℚ :=
  (prices.map (fun p =>
    ((ewSharesToBuy (val / (prices.length : ℚ)) p : ℤ) : ℚ) * p)).sum

/-- Claim C8: for every portfolio value and every nonempty row set with
positive prices, the equal-weight allocation's total cost never exceeds
the portfolio value. -/
theorem c8_no_overspend (val : ℚ) (prices : List ℚ) (hne : prices ≠ [])
    (hp : ∀ p ∈ prices, 0 < p) :
    positionSize val prices.length = .ok (val / (prices.length : ℚ))
    ∧ ewTotalCost val prices ≤ val := by
  have hn0 : prices.length ≠ 0 := fun h =>
    hne (List.length_eq_zero.mp h)
  have hQ : ((prices.length : ℚ)) ≠ 0 := Nat.cast_ne_zero.mpr hn0
  constructor
  · simp [positionSize, pyDiv, hQ]
  · unfold ewTotalCost
    have hbound : ∀ p ∈ prices,
        ((ewSharesToBuy (val / (prices.length : ℚ)) p : ℤ) : ℚ) * p
          ≤ val / (prices.length : ℚ) := by
      intro p hp'
      have hppos := hp p hp'
      have h1 : ((ewSharesToBuy (val / (prices.length : ℚ)) p : ℤ) : ℚ)
          ≤ val / (prices.length : ℚ) / p := Int.floor_le _
      calc ((ewSharesToBuy (val / (prices.length : ℚ)) p : ℤ) : ℚ) * p
          ≤ (val / (prices.length : ℚ) / p) * p :=
            mul_le_mul_of_nonneg_right h1 (le_of_lt hppos)
        _ = val / (prices.length : ℚ) :=
            div_mul_cancel₀ _ (ne_of_gt hppos)
    calc (prices.map (fun p =>
            ((ewSharesToBuy (val / (prices.length : ℚ)) p : ℤ) : ℚ) * p)).sum
        ≤ (prices.map (fun _ => val / (prices.length : ℚ))).sum :=
          List.sum_le_sum hbound
      _ = val := by
          rw [List.map_const', List.sum_replicate, nsmul_eq_mul]
          field_simp

/-- Witness for C8 at the spec's own example: portfolio 10000 over four
rows priced 2500 each spends exactly 10000. -/
theorem c8_witness :
    positionSize 10000 [(2500 : ℚ), 2500, 2500, 2500].length
        = .ok (10000 / (([(2500 : ℚ), 2500, 2500, 2500].length : ℚ)))
    ∧ ewTotalCost 10000 [2500, 2500, 2500, 2500] ≤ 10000 :=
  c8_no_overspend 10000 [2500, 2500, 2500, 2500] (by decide)
    (by intro p hp; fin_cases hp <;> norm_num)

/-! ## Quote Fetcher consumption

equal_weight_spdr.py lines 164-178: for each batch the response dict is
indexed as data[symbol]['quote'][...] for every requested symbol; the
momentum loops (lines 94-108 and 202-223) index data[symbol][...] the
same way.  Nothing catches a KeyError. -/

/-- Fields of one batch response entry that the equal-weight script
reads (the nested 'quote' record is flattened to the two fields
used). -/
structure EwQuote where
  latestPrice : ℚ
  marketCap : ℚ
deriving DecidableEq, Repr

/-- Row appended to final_df for one symbol. -/
structure EwRow where
  ticker : String
  price : ℚ
  marketCap : ℚ
deriving DecidableEq, Repr

/-- Python dict indexing data[symbol]: raises KeyError when the key is
absent. -/
def pyDictGet (data : List (String × EwQuote)) (k : String) :
    Except PyErr EwQuote :=
  match data.lookup k with
  | some v => .ok v
  | none => .error (.keyError k)

/-- Row-append loop over one batch (lines 167-178): each requested
symbol contributes the row built from data[symbol]; an uncaught
KeyError aborts the run. -/
def buildRows (symbols : List String) (data : List (String × EwQuote)) :
    Except PyErr (List EwRow) :=
  match symbols with
  | [] => .ok []
  | s :: rest => do
    let q ← pyDictGet data s
    let rows ← buildRows rest data
    .ok (⟨s, q.latestPrice, q.marketCap⟩ :: rows)

theorem buildRows_cons_ok (s : String) (rest : List String)
    (data : List (String × EwQuote)) (q : EwQuote)
    (hq : data.lookup s = some q) :
    buildRows (s :: rest) data
      = (buildRows rest data).map
          (fun rows => (⟨s, q.latestPrice, q.marketCap⟩ : EwRow) :: rows) := by
  simp only [buildRows, pyDictGet, hq]
  cases buildRows rest data <;> rfl

theorem buildRows_cons_err (s : String) (rest : List String)
    (data : List (String × EwQuote)) (hq : data.lookup s = none) :
    buildRows (s :: rest) data = .error (.keyError s) := by
  simp only [buildRows, pyDictGet, hq]
  rfl

/-- Claim C9 as stated is false: requesting symbols A and B against a
response that only contains A raises KeyError for B and aborts, rather
than skipping B and returning the row for A. -/
theorem c9_counterexample :
    buildRows ["A", "B"] [("A", (⟨100, 1000⟩ : EwQuote))]
        = .error (.keyError "B")
    ∧ buildRows ["A", "B"] [("A", (⟨100, 1000⟩ : EwQuote))]
        ≠ .ok [(⟨"A", 100, 1000⟩ : EwRow)] := by
  refine ⟨rfl, ?_⟩
  intro h
  rw [show buildRows ["A", "B"] [("A", (⟨100, 1000⟩ : EwQuote))]
      = Except.error (PyErr.keyError "B") from rfl] at h
  exact Except.noConfusion h

/-- Claim C9 amended: the row loop succeeds — producing exactly one row
per requested symbol, in order — precisely when every requested symbol
is present in the batch response; any absent symbol makes the loop
raise an uncaught KeyError that aborts the run (no partial skip). -/
theorem c9_keyerror_on_missing (symbols : List String)
    (data : List (String × EwQuote)) :
    ((∃ rows, buildRows symbols data = .ok rows
        ∧ rows.map (fun r => r.ticker) = symbols)
      ↔ ∀ s ∈ symbols, (data.lookup s).isSome = true)
    ∧ ((∃ s ∈ symbols, data.lookup s = none) →
        ∃ k, buildRows symbols data = .error (.keyError k)) := by
  induction symbols with
  | nil =>
    constructor
    · constructor
      · intro _ s hs
        exact absurd hs (List.not_mem_nil s)
      · intro _
        exact ⟨[], rfl, rfl⟩
    · rintro ⟨s, hs, -⟩
      exact absurd hs (List.not_mem_nil s)
  | cons s rest ih =>
    constructor
    · cases hq : data.lookup s with
      | none =>
        rw [buildRows_cons_err s rest data hq]
        constructor
        · rintro ⟨rows, h, -⟩
          exact absurd h (by simp)
        · intro hall
          have := hall s (List.mem_cons_self s rest)
          rw [hq] at this
          exact absurd this (by simp)
      | some q =>
        rw [buildRows_cons_ok s rest data q hq]
        constructor
        · rintro ⟨rows, h, hmap⟩
          cases hrest : buildRows rest data with
          | error e =>
            rw [hrest] at h
            exact absurd h (by simp [Except.map])
          | ok rows' =>
            rw [hrest] at h
            simp only [Except.map] at h
            have hrows : rows
                = (⟨s, q.latestPrice, q.marketCap⟩ : EwRow) :: rows' := by
              cases h
              rfl
            intro t ht
            rcases List.mem_cons.mp ht with rfl | ht'
            · simp [hq]
            · have hmap' : rows'.map (fun r => r.ticker) = rest := by
                rw [hrows] at hmap
                simpa using hmap
              exact (ih.1).mp ⟨rows', hrest, hmap'⟩ t ht'
        · intro hall
          obtain ⟨rows', h', hmap'⟩ :=
            (ih.1).mpr (fun t ht => hall t (List.mem_cons_of_mem s ht))
          refine ⟨(⟨s, q.latestPrice, q.marketCap⟩ : EwRow) :: rows', ?_, ?_⟩
          · rw [h']
            rfl
          · simp [hmap']
    · rintro ⟨t, ht, hnone⟩
      rcases List.mem_cons.mp ht with rfl | ht'
      · exact ⟨t, buildRows_cons_err t rest data hnone⟩
      · cases hq : data.lookup s with
        | none => exact ⟨s, buildRows_cons_err s rest data hq⟩
        | some q =>
          obtain ⟨k, hk⟩ := ih.2 ⟨t, ht', hnone⟩
          refine ⟨k, ?_⟩
          rw [buildRows_cons_ok s rest data q hq, hk]
          rfl

/-- Witness for the amended C9 at a concrete batch: both symbols
present succeeds with one row each; a missing symbol yields a
KeyError. -/
theorem c9_witness :
    ((∃ rows, buildRows ["A", "B"]
          [("A", (⟨100, 1000⟩ : EwQuote)), ("B", ⟨200, 2000⟩)] = .ok rows
        ∧ rows.map (fun r => r.ticker) = ["A", "B"])
      ↔ ∀ s ∈ ["A", "B"],
          (([("A", (⟨100, 1000⟩ : EwQuote)),
              ("B", ⟨200, 2000⟩)].lookup s).isSome = true))
    ∧ ((∃ s ∈ ["A", "B"],
          [("A", (⟨100, 1000⟩ : EwQuote)), ("B", ⟨200, 2000⟩)].lookup s
            = none) →
        ∃ k, buildRows ["A", "B"]
            [("A", (⟨100, 1000⟩ : EwQuote)), ("B", ⟨200, 2000⟩)]
          = .error (.keyError k)) :=
  c9_keyerror_on_missing ["A", "B"]
    [("A", (⟨100, 1000⟩ : EwQuote)), ("B", ⟨200, 2000⟩)]

/-! ## Portfolio-size prompt (momentum_investing.py lines 137-147)

    def portfolio_input():
        global portfolio_size
        portfolio_size = input("Enter the value of your portfolio:")
        try:
            val = float(portfolio_size)
        except ValueError:
            print("That's not a number! \n Try again:")
            portfolio_size = input("Enter the value of your portfolio:")

A user input is modelled by the outcome of Python float() on the
entered string: some v when the string parses as the float v, none when
float() raises ValueError. -/

/-- float(s) at allocation time (lines 154 and 330): ValueError when
the stored string does not parse. -/
def pyFloat (s : Option ℚ) : Except PyErr ℚ :=
  match s with
  | some v => .ok v
  | none => .error .valueError

/-- portfolio_input: the first input becomes portfolio_size; only when
float() on it fails is a second input read, which replaces
portfolio_size unconditionally (the parsed val is discarded and the
except branch performs no validation).  The function itself always
returns normally. -/
def portfolioInput (first second : Option ℚ) : Option ℚ :=
  match first with
  | some _ => first
  | none => second

/-- Allocation-time position size (lines 154 and 330):
float(portfolio_size) / len(rows). -/
def momPositionSize (stored : Option ℚ) (rowCount : ℕ) :
    Except PyErr ℚ := do
  let v ← pyFloat stored
  pyDiv v rowCount

/-- Claim C10: after a non-numeric first input, the re-prompted second
input is stored without any validation, and a non-numeric second input
only fails later, as a ValueError at float(portfolio_size) inside the
allocation, not at the prompt. -/
theorem c10_reprompt_unvalidated (first second : Option ℚ) (n : ℕ)
    (h : first = none) :
    portfolioInput first second = second
    ∧ (second = none →
        momPositionSize (portfolioInput first second) n
          = .error .valueError) := by
  subst h
  refine ⟨rfl, ?_⟩
  intro h2
  subst h2
  rfl

/-- Witness for C10: both inputs non-numeric; the prompt still returns,
and allocation over 50 rows fails with ValueError. -/
theorem c10_witness :
    portfolioInput none none = none
    ∧ ((none : Option ℚ) = none →
        momPositionSize (portfolioInput none none) 50
          = .error .valueError) :=
  c10_reprompt_unvalidated none none 50 rfl
